import Mathlib

/-!
Shallow embedding of the `bang` shebang-applier utility (`bin/bang.js`).

Strings are modelled as `List Char` (JS strings of BMP code points).
The filesystem is an association list from paths to file states.
The source file holds two revisions of the program; both are embedded:
the earlier revision's functions carry the suffix `V1`.
-/

/-- The JS regex class `\s`: space, tab, line terminators, and the
Unicode space separators, as ECMAScript defines `\s`. -/
def isSpaceJS (c : Char) : Bool :=
  c.val == 9 || c.val == 10 || c.val == 11 || c.val == 12 || c.val == 13 ||
  c.val == 32 || c.val == 160 || c.val == 0x1680 ||
  (0x2000 ≤ c.val && c.val ≤ 0x200A) ||
  c.val == 0x2028 || c.val == 0x2029 || c.val == 0x202F ||
  c.val == 0x205F || c.val == 0x3000 || c.val == 0xFEFF

/-- The JS regex class `[\w\d]` (same as `\w`): ASCII letters, digits, underscore. -/
def isWordChar (c : Char) : Bool :=
  ('a' ≤ c && c ≤ 'z') || ('A' ≤ c && c ≤ 'Z') || ('0' ≤ c && c ≤ '9') || c == '_'

/-- `executable.replace(/^-S\s+/, '')`: strip a leading `-S` token together
with the (maximal) run of whitespace that follows it. -/
def stripS (s : List Char) : List Char :=
  match s with
  | '-' :: 'S' :: c :: rest =>
      if isSpaceJS c then List.dropWhile isSpaceJS (c :: rest)
      else '-' :: 'S' :: c :: rest
  | other => other

/-- `cleanExecutable.includes(' ')`: the string contains a space character (U+0020). -/
def containsSpace (s : List Char) : Bool :=
  s.any (fun c => c == ' ')

/-- The characters of `"#!/usr/bin/env "`. -/
def envLine : List Char :=
  ['#', '!', '/', 'u', 's', 'r', '/', 'b', 'i', 'n', '/', 'e', 'n', 'v', ' ']

/-- The characters of `"#!/usr/bin/env -S "`. -/
def envSLine : List Char :=
  ['#', '!', '/', 'u', 's', 'r', '/', 'b', 'i', 'n', '/', 'e', 'n', 'v', ' ', '-', 'S', ' ']

/-- `createShebang` from the later revision (bang.js lines 115-124). -/
def createShebang (executable : List Char) : List Char :=
  let cleanExecutable := stripS executable
  if containsSpace cleanExecutable then
    envSLine ++ cleanExecutable
  else
    envLine ++ cleanExecutable

/-- `createShebang` from the earlier revision (bang.js lines 6-15); its body
is character-for-character the same as the later revision's. -/
def createShebangV1 (executable : List Char) : List Char :=
  let cleanExecutable := stripS executable
  if containsSpace cleanExecutable then
    envSLine ++ cleanExecutable
  else
    envLine ++ cleanExecutable

/-- `content.split(/\n/g)`: split on every newline; `n` separators yield
`n+1` pieces, and the empty string yields one empty piece. -/
def splitNl : List Char → List (List Char)
  | [] => [[]]
  | c :: rest =>
      if c = '\n' then [] :: splitNl rest
      else
        match splitNl rest with
        | head :: tail => (c :: head) :: tail
        | [] => [[c]]

/-- `parts.join('\n')`: interleave a newline between the pieces. -/
def joinNl : List (List Char) → List Char
  | [] => []
  | [x] => x
  | x :: y :: xs => x ++ '\n' :: joinNl (y :: xs)

/-- `content.split(/\n/g).slice(1).join('\n')` (bang.js line 152): the
force-replace transformation of the old content. -/
def dropFirstLine (content : List Char) : List Char :=
  joinNl ((splitNl content).drop 1)

/-- Spec-side description of the same operation: remove the first line,
up to and including the first newline (everything, if there is none). -/
def dropThroughFirstNl : List Char → List Char
  | [] => []
  | c :: rest => if c = '\n' then rest else dropThroughFirstNl rest

/-- `content.startsWith('#!')`. -/
def hasShebang (content : List Char) : Bool :=
  match content with
  | c1 :: c2 :: _ => c1 == '#' && c2 == '!'
  | _ => false

/-- A file on disk: its text content and its permission mode bits. -/
structure FileState where
  content : List Char
  mode : Nat
deriving DecidableEq, Repr

/-- The `{ force, dryRun }` option set of the later revision. -/
structure Options where
  force : Bool
  dryRun : Bool
deriving DecidableEq, Repr

/-- The per-file outcome the applier reports on the console. -/
inductive Outcome where
  | added
  | skipped
  | wouldAdd
  | wouldSkip
  | wouldReplace
deriving DecidableEq, Repr

/-- Result of one `addShebang` call: either `process.exit(1)` on a missing
file, or a resulting file state together with the reported outcome. -/
inductive ApplyResult where
  | fatal
  | done (st : FileState) (out : Outcome)
deriving DecidableEq, Repr

/-- The file state an `ApplyResult` leaves behind, when the call returned. -/
def ApplyResult.stateOf : ApplyResult → Option FileState
  | .fatal => none
  | .done st _ => some st

/-- `addShebang(filePath, executable, { force, dryRun })` from the later
revision (bang.js lines 126-169), acting on the file found at the path
(`none` models a path that fails `fs.existsSync`). -/
def addShebang (file : Option FileState) (executable : List Char)
    (opts : Options) : ApplyResult :=
  match file with
  | none => .fatal
  | some st =>
      let shebang := createShebang executable ++ ['\n']
      if hasShebang st.content then
        if opts.dryRun then
          if !opts.force then .done st .wouldSkip
          else .done st .wouldReplace
        else
          if !opts.force then .done st .skipped
          else .done ⟨shebang ++ dropFirstLine st.content, 0o755⟩ .added
      else
        if opts.dryRun then .done st .wouldAdd
        else .done ⟨shebang ++ st.content, 0o755⟩ .added

/-- `addShebang(filePath, executable)` from the earlier revision
(bang.js lines 17-39): no options, skip whenever a shebang is present. -/
def addShebangV1 (file : Option FileState) (executable : List Char) : ApplyResult :=
  match file with
  | none => .fatal
  | some st =>
      let shebang := createShebangV1 executable ++ ['\n']
      if hasShebang st.content then .done st .skipped
      else .done ⟨shebang ++ st.content, 0o755⟩ .added

/-- A file path, modelled like every other JS string. -/
abbrev FPath := List Char

/-- The filesystem: an association list from paths to file states. -/
abbrev FS := List (FPath × FileState)

/-- Look a path up on disk (`fs.existsSync` + `fs.readFileSync`). -/
def fsRead (fs : FS) (p : FPath) : Option FileState :=
  match fs with
  | [] => none
  | (q, st) :: rest => if q = p then some st else fsRead rest p

/-- Overwrite the file at a path (`fs.writeFileSync` + `fs.chmodSync`). -/
def fsWrite (fs : FS) (p : FPath) (st : FileState) : FS :=
  match fs with
  | [] => [(p, st)]
  | (q, st0) :: rest =>
      if q = p then (q, st) :: rest else (q, st0) :: fsWrite rest p st

/-- Commit one applier call's effect to disk: only the `added` outcome
reaches `writeFileSync`/`chmodSync`; every other outcome returns early. -/
def commit (fs : FS) (p : FPath) (st : FileState) (out : Outcome) : FS :=
  match out with
  | .added => fsWrite fs p st
  | _ => fs

/-- One batch target: a (file path, executable command) pair. -/
abbrev Target := FPath × List Char

/-- Result of running a batch: normal completion with the final filesystem
and the per-target report log, or `process.exit(1)` at a missing file,
with the filesystem and log as they stood at that moment. -/
inductive RunResult where
  | ok (fs : FS) (log : List (FPath × Outcome))
  | fatalAt (fs : FS) (log : List (FPath × Outcome)) (p : FPath)
deriving DecidableEq, Repr

/-- The process exit code a batch run produces. -/
def RunResult.exitCode : RunResult → Nat
  | .ok _ _ => 0
  | .fatalAt _ _ _ => 1

/-- The manifest loop of `main` (bang.js lines 270-272): call `addShebang`
on each target in order; a `process.exit(1)` inside `addShebang`
terminates the whole batch on the spot. -/
def runBatch (fs : FS) (targets : List Target) (opts : Options) : RunResult :=
  match targets with
  | [] => .ok fs []
  | (p, e) :: rest =>
      match addShebang (fsRead fs p) e opts with
      | .fatal => .fatalAt fs [] p
      | .done st out =>
          match runBatch (commit fs p st out) rest opts with
          | .ok fs2 log => .ok fs2 ((p, out) :: log)
          | .fatalAt fs2 log q => .fatalAt fs2 ((p, out) :: log) q

/-- The CLI option flags accumulated by `parseArgs`. -/
structure CLIOptions where
  help : Bool
  version : Bool
  force : Bool
  dryRun : Bool
deriving DecidableEq, Repr

/-- The two exceptions `parseArgs` can throw. -/
inductive ParseError where
  | unknownOption (arg : List Char)
  | invalidArgCount
deriving DecidableEq, Repr

/-- The token `--help`. -/
def helpTok : List Char := ['-', '-', 'h', 'e', 'l', 'p']

/-- The token `-h`. -/
def hTok : List Char := ['-', 'h']

/-- The token `--version`. -/
def versionTok : List Char := ['-', '-', 'v', 'e', 'r', 's', 'i', 'o', 'n']

/-- The token `-v`. -/
def vTok : List Char := ['-', 'v']

/-- The token `--force`. -/
def forceTok : List Char := ['-', '-', 'f', 'o', 'r', 'c', 'e']

/-- The token `-f`. -/
def fTok : List Char := ['-', 'f']

/-- The token `--dry-run`. -/
def dryRunTok : List Char := ['-', '-', 'd', 'r', 'y', '-', 'r', 'u', 'n']

/-- The token `-n`. -/
def nTok : List Char := ['-', 'n']

/-- The eight option tokens `parseArgs` recognizes. -/
def knownTokens : List (List Char) :=
  [helpTok, hTok, versionTok, vTok, forceTok, fTok, dryRunTok, nTok]

/-- The JS regex test `arg.match(/^--?[\w\d]+$/)`: `-` or `--` followed by
one or more word characters and nothing else. -/
def optionLike (arg : List Char) : Bool :=
  match arg with
  | '-' :: '-' :: rest => !rest.isEmpty && rest.all isWordChar
  | '-' :: rest => !rest.isEmpty && rest.all isWordChar
  | _ => false

/-- The `for (const arg of args)` loop of `parseArgs` (bang.js lines
199-213), threading the flag set and positional accumulator. -/
def parseLoop : List (List Char) → CLIOptions → List (List Char) →
    Except ParseError (CLIOptions × List (List Char))
  | [], opts, pos => .ok (opts, pos)
  | arg :: rest, opts, pos =>
      if arg = helpTok ∨ arg = hTok then
        parseLoop rest ⟨true, opts.version, opts.force, opts.dryRun⟩ pos
      else if arg = versionTok ∨ arg = vTok then
        parseLoop rest ⟨opts.help, true, opts.force, opts.dryRun⟩ pos
      else if arg = forceTok ∨ arg = fTok then
        parseLoop rest ⟨opts.help, opts.version, true, opts.dryRun⟩ pos
      else if arg = dryRunTok ∨ arg = nTok then
        parseLoop rest ⟨opts.help, opts.version, opts.force, true⟩ pos
      else if optionLike arg then
        .error (.unknownOption arg)
      else
        parseLoop rest opts (pos ++ [arg])

/-- `parseArgs(args)` (bang.js lines 189-220): run the loop, then reject
any positional count other than 0 or 2. -/
def parseArgs (args : List (List Char)) :
    Except ParseError (CLIOptions × List (List Char)) :=
  match parseLoop args ⟨false, false, false, false⟩ [] with
  | .error e => .error e
  | .ok (opts, pos) =>
      if pos.length != 0 && pos.length != 2 then .error .invalidArgCount
      else .ok (opts, pos)

/-- What `main` (bang.js lines 222-278) decides to do before touching any
file: exit 1 on a parse error, exit 0 after help/version, or proceed to
the targets with the parsed options. -/
inductive MainResult where
  | usageError
  | helpShown
  | versionShown
  | runTargets (opts : CLIOptions) (positional : List (List Char))
deriving DecidableEq, Repr

/-- The argument-handling prefix of `main`. -/
def mainDispatch (args : List (List Char)) : MainResult :=
  match parseArgs args with
  | .error _ => .usageError
  | .ok (opts, pos) =>
      if opts.help then .helpShown
      else if opts.version then .versionShown
      else .runTargets opts pos

/-- The exit code `main` reaches without processing targets
(`none` means it proceeds to the targets). -/
def mainExitCode : MainResult → Option Nat
  | .usageError => some 1
  | .helpShown => some 0
  | .versionShown => some 0
  | .runTargets _ _ => none

/-! ### Helper lemmas about line splitting and joining -/

/-- `splitNl` never returns the empty list of pieces. -/
theorem splitNl_exists_cons (s : List Char) : ∃ h t, splitNl s = h :: t := by
  induction s with
  | nil => exact ⟨[], [], rfl⟩
  | cons c rest ih =>
      by_cases hc : c = '\n'
      · exact ⟨[], splitNl rest, by simp [splitNl, hc]⟩
      · obtain ⟨h, t, heq⟩ := ih
        exact ⟨c :: h, t, by simp [splitNl, hc, heq]⟩

/-- Joining the split recovers the original string. -/
theorem joinNl_splitNl (s : List Char) : joinNl (splitNl s) = s := by
  induction s with
  | nil => rfl
  | cons c rest ih =>
      obtain ⟨h, t, heq⟩ := splitNl_exists_cons rest
      by_cases hc : c = '\n'
      · subst hc
        rw [show splitNl ('\n' :: rest) = [] :: splitNl rest by simp [splitNl]]
        rw [heq] at ih ⊢
        rw [show joinNl ([] :: h :: t) = [] ++ '\n' :: joinNl (h :: t) from rfl]
        rw [ih]
        rfl
      · rw [show splitNl (c :: rest) = (c :: h) :: t by simp [splitNl, hc, heq]]
        rw [heq] at ih
        cases t with
        | nil =>
            rw [show joinNl [c :: h] = c :: h from rfl]
            rw [show joinNl [h] = h from rfl] at ih
            rw [ih]
        | cons u t' =>
            rw [show joinNl ((c :: h) :: u :: t') = (c :: h) ++ '\n' :: joinNl (u :: t') from rfl]
            rw [show joinNl (h :: u :: t') = h ++ '\n' :: joinNl (u :: t') from rfl] at ih
            rw [List.cons_append, ih]

/-- The force-replace transformation is: drop everything up to and
including the first newline (or everything, if there is none). -/
theorem dropFirstLine_eq (s : List Char) : dropFirstLine s = dropThroughFirstNl s := by
  induction s with
  | nil => rfl
  | cons c rest ih =>
      by_cases hc : c = '\n'
      · subst hc
        rw [dropFirstLine, show splitNl ('\n' :: rest) = [] :: splitNl rest by simp [splitNl]]
        rw [List.drop_one, List.tail_cons, joinNl_splitNl]
        simp [dropThroughFirstNl]
      · obtain ⟨h, t, heq⟩ := splitNl_exists_cons rest
        rw [dropFirstLine, show splitNl (c :: rest) = (c :: h) :: t by simp [splitNl, hc, heq]]
        rw [dropFirstLine, heq] at ih
        rw [List.drop_one, List.tail_cons] at ih ⊢
        rw [ih]
        simp [dropThroughFirstNl, hc]

/-! ### Helper lemmas about the applier -/

/-- Without force, a file that already starts with `#!` is left untouched. -/
theorem addShebang_stateOf_noforce (st : FileState) (e : List Char) (d : Bool)
    (h : hasShebang st.content = true) :
    (addShebang (some st) e ⟨false, d⟩).stateOf = some st := by
  cases d <;> simp [addShebang, h, ApplyResult.stateOf]

/-- A dry run leaves the file untouched, whatever the other inputs are. -/
theorem addShebang_stateOf_dryRun (st : FileState) (e : List Char) (force : Bool) :
    (addShebang (some st) e ⟨force, true⟩).stateOf = some st := by
  cases force <;> cases h : hasShebang st.content <;>
    simp [addShebang, h, ApplyResult.stateOf]

/-- Force-replace on a file that starts with `#!`: new shebang, newline,
then the old content with its first line removed; mode becomes 0o755. -/
theorem addShebang_force_replace (content : List Char) (mode : Nat) (e : List Char)
    (h : hasShebang content = true) :
    addShebang (some ⟨content, mode⟩) e ⟨true, false⟩ =
      .done ⟨createShebang e ++ '\n' :: dropThroughFirstNl content, 0o755⟩ .added := by
  simp [addShebang, h, dropFirstLine_eq]

/-- Adding to a file that does not start with `#!`: new shebang, newline,
then the old content unchanged; mode becomes 0o755. -/
theorem addShebang_add (content : List Char) (mode : Nat) (e : List Char) (force : Bool)
    (h : hasShebang content = false) :
    addShebang (some ⟨content, mode⟩) e ⟨force, false⟩ =
      .done ⟨createShebang e ++ '\n' :: content, 0o755⟩ .added := by
  cases force <;> simp [addShebang, h]

/-- Whenever the applier reports `added`, the resulting mode is 0o755. -/
theorem addShebang_added_mode (file : Option FileState) (e : List Char)
    (opts : Options) (st2 : FileState)
    (h : addShebang file e opts = .done st2 .added) : st2.mode = 0o755 := by
  obtain ⟨force, dryRun⟩ := opts
  cases file with
  | none => simp [addShebang] at h
  | some st =>
      cases hs : hasShebang st.content <;> cases force <;> cases dryRun <;>
        simp [addShebang, hs] at h <;>
        simp [← h]

/-- Every synthesized shebang line starts with the two characters `#!`. -/
theorem hasShebang_createShebang (e : List Char) : hasShebang (createShebang e) = true := by
  by_cases h : containsSpace (stripS e) = true <;>
    simp [createShebang, h, envLine, envSLine, hasShebang]

/-- Starting with `#!` is preserved by appending on the right. -/
theorem hasShebang_append (l x : List Char) (h : hasShebang l = true) :
    hasShebang (l ++ x) = true := by
  cases l with
  | nil => simp [hasShebang] at h
  | cons a l' =>
      cases l' with
      | nil => simp [hasShebang] at h
      | cons b l'' => simpa [hasShebang] using h

/-! ### Helper lemmas about synthesis, parsing and the batch loop -/

/-- A string with no whitespace at all contains no space character. -/
theorem containsSpace_eq_false (s : List Char)
    (h : ∀ c ∈ s, isSpaceJS c = false) : containsSpace s = false := by
  rw [containsSpace]
  by_contra hx
  rw [Bool.not_eq_false, List.any_eq_true] at hx
  obtain ⟨c, hc, hceq⟩ := hx
  have hsp : c = ' ' := by simpa using hceq
  subst hsp
  exact absurd (h ' ' hc) (by decide)

/-- If some argument matches the option regex but is none of the eight
recognized tokens, the parse loop throws an unknown-option error. -/
theorem parseLoop_unknown (args : List (List Char)) (t : List Char)
    (ht : t ∈ args) (hlike : optionLike t = true) (hknown : t ∉ knownTokens) :
    ∀ opts pos, ∃ u, parseLoop args opts pos = .error (.unknownOption u) := by
  simp only [knownTokens, List.mem_cons, List.not_mem_nil, or_false] at hknown
  push_neg at hknown
  obtain ⟨hk1, hk2, hk3, hk4, hk5, hk6, hk7, hk8⟩ := hknown
  induction args with
  | nil => cases ht
  | cons a rest ih =>
      intro opts pos
      rcases List.mem_cons.mp ht with rfl | hrest
      · simp only [parseLoop]
        rw [if_neg (by tauto), if_neg (by tauto), if_neg (by tauto), if_neg (by tauto),
          if_pos hlike]
        exact ⟨t, rfl⟩
      · simp only [parseLoop]
        by_cases h1 : a = helpTok ∨ a = hTok
        · rw [if_pos h1]; exact ih hrest _ _
        · rw [if_neg h1]
          by_cases h2 : a = versionTok ∨ a = vTok
          · rw [if_pos h2]; exact ih hrest _ _
          · rw [if_neg h2]
            by_cases h3 : a = forceTok ∨ a = fTok
            · rw [if_pos h3]; exact ih hrest _ _
            · rw [if_neg h3]
              by_cases h4 : a = dryRunTok ∨ a = nTok
              · rw [if_pos h4]; exact ih hrest _ _
              · rw [if_neg h4]
                by_cases h5 : optionLike a = true
                · rw [if_pos h5]; exact ⟨a, rfl⟩
                · rw [if_neg h5]; exact ih hrest _ _

/-- A batch that succeeded on a prefix and then meets a target whose path
is missing aborts there, keeping the prefix's filesystem and log. -/
theorem runBatch_missing (pre : List Target) (fs : FS) (opts : Options)
    (p : FPath) (e : List Char) (post : List Target)
    (fs2 : FS) (log : List (FPath × Outcome))
    (hpre : runBatch fs pre opts = .ok fs2 log)
    (hmiss : fsRead fs2 p = none) :
    runBatch fs (pre ++ (p, e) :: post) opts = .fatalAt fs2 log p := by
  induction pre generalizing fs log with
  | nil =>
      obtain ⟨rfl, rfl⟩ : fs = fs2 ∧ ([] : List (FPath × Outcome)) = log := by
        simpa [runBatch] using hpre
      simp only [List.nil_append, runBatch, hmiss, addShebang]
  | cons t pre ih =>
      obtain ⟨q, e2⟩ := t
      rw [List.cons_append]
      simp only [runBatch] at hpre ⊢
      cases ha : addShebang (fsRead fs q) e2 opts with
      | fatal => simp [ha] at hpre
      | done st out =>
          simp only [ha] at hpre ⊢
          cases hr : runBatch (commit fs q st out) pre opts with
          | fatalAt f l r => simp [hr] at hpre
          | ok f l =>
              simp only [hr] at hpre
              obtain ⟨rfl, rfl⟩ : f = fs2 ∧ (q, out) :: l = log := by simpa using hpre
              rw [ih (commit fs q st out) l hr]

/-! ### The claims -/

/-- Claim C1: applying the applier with force=true and dryRun=false to a
file whose content starts with `#!` replaces the content with the newly
synthesized shebang line plus a newline, followed by exactly the original
content with its first line (up to and including the first newline)
removed; all later lines are preserved verbatim and in order. -/
theorem claim_C1 (content : List Char) (mode : Nat) (e : List Char)
    (h : hasShebang content = true) :
    addShebang (some ⟨content, mode⟩) e ⟨true, false⟩ =
      .done ⟨createShebang e ++ '\n' :: dropThroughFirstNl content, 0o755⟩ .added :=
  addShebang_force_replace content mode e h

/-- Claim C1 witnessed on the file `#!a\nb` with command `n`. -/
theorem claim_C1_witness :
    addShebang (some ⟨['#', '!', 'a', '\n', 'b'], 0o644⟩) ['n'] ⟨true, false⟩ =
      .done ⟨envLine ++ ['n', '\n', 'b'], 0o755⟩ .added := by
  have h := claim_C1 ['#', '!', 'a', '\n', 'b'] 0o644 ['n'] (by decide)
  rw [h]
  decide

/-- Claim C2 as stated is false: the command `a<TAB>b` still contains
internal whitespace after stripping (a tab, which the JS class `\s`
matches), yet synthesis does not use the `-S` form, because the code
tests `includes(' ')` — the space character only. -/
theorem claim_C2_counterexample :
    stripS ['a', '\t', 'b'] = ['a', '\t', 'b'] ∧
    isSpaceJS '\t' = true ∧
    createShebang ['a', '\t', 'b'] = envLine ++ ['a', '\t', 'b'] ∧
    createShebang ['a', '\t', 'b'] ≠ envSLine ++ ['a', '\t', 'b'] := by
  refine ⟨rfl, rfl, ?_, ?_⟩ <;> decide

/-- Claim C2 (amended): for every command string that, after stripping an
optional leading `-S` token and its following whitespace, still contains
a space character (U+0020), synthesis yields `#!/usr/bin/env -S <command>`. -/
theorem claim_C2 (executable : List Char)
    (h : containsSpace (stripS executable) = true) :
    createShebang executable = envSLine ++ stripS executable := by
  simp [createShebang, h]

/-- Claim C2 witnessed on the command `uv x`. -/
theorem claim_C2_witness :
    createShebang ['u', 'v', ' ', 'x'] = envSLine ++ ['u', 'v', ' ', 'x'] := by
  have h := claim_C2 ['u', 'v', ' ', 'x'] (by decide)
  rw [h]
  decide

/-- Claim C3 as stated is false: the token `--foo-bar` starts with `--`
and is none of the recognized options, yet `parseArgs` accepts it as a
positional value (the regex `^--?[\w\d]+$` does not match a hyphen), and
`main` proceeds to treat it as a file path. -/
theorem claim_C3_counterexample :
    parseArgs [['-', '-', 'f', 'o', 'o', '-', 'b', 'a', 'r'], ['n', 'o', 'd', 'e']] =
      .ok (⟨false, false, false, false⟩,
        [['-', '-', 'f', 'o', 'o', '-', 'b', 'a', 'r'], ['n', 'o', 'd', 'e']]) ∧
    mainDispatch [['-', '-', 'f', 'o', 'o', '-', 'b', 'a', 'r'], ['n', 'o', 'd', 'e']] =
      .runTargets ⟨false, false, false, false⟩
        [['-', '-', 'f', 'o', 'o', '-', 'b', 'a', 'r'], ['n', 'o', 'd', 'e']] := by
  constructor <;> rfl

/-- Claim C3 (amended): every argument token consisting of `-` or `--`
followed by one or more word characters (letters, digits, underscore)
that is not one of the eight recognized option tokens makes argument
parsing fail with an unknown-option error, and the process exits with
code 1. -/
theorem claim_C3 (args : List (List Char)) (t : List Char)
    (ht : t ∈ args) (hlike : optionLike t = true) (hknown : t ∉ knownTokens) :
    (∃ u, parseArgs args = .error (.unknownOption u)) ∧
    mainExitCode (mainDispatch args) = some 1 := by
  obtain ⟨u, hu⟩ :=
    parseLoop_unknown args t ht hlike hknown ⟨false, false, false, false⟩ []
  refine ⟨⟨u, ?_⟩, ?_⟩
  · unfold parseArgs
    rw [hu]
  · unfold mainDispatch parseArgs
    rw [hu]
    rfl

/-- Claim C3 witnessed on the single token `--zz`. -/
theorem claim_C3_witness :
    (∃ u, parseArgs [['-', '-', 'z', 'z']] = .error (.unknownOption u)) ∧
    mainExitCode (mainDispatch [['-', '-', 'z', 'z']]) = some 1 :=
  claim_C3 [['-', '-', 'z', 'z']] ['-', '-', 'z', 'z'] (by decide) (by decide) (by decide)

/-- Claim C4: applying the applier without force (any dryRun value) to a
file whose content starts with `#!` leaves its content and permission
bits unchanged. -/
theorem claim_C4 (st : FileState) (e : List Char) (dryRun : Bool)
    (h : hasShebang st.content = true) :
    (addShebang (some st) e ⟨false, dryRun⟩).stateOf = some st :=
  addShebang_stateOf_noforce st e dryRun h

/-- Claim C4 witnessed on the file `#!x` with mode 0o600. -/
theorem claim_C4_witness :
    (addShebang (some ⟨['#', '!', 'x'], 0o600⟩) ['n'] ⟨false, false⟩).stateOf =
      some ⟨['#', '!', 'x'], 0o600⟩ :=
  claim_C4 ⟨['#', '!', 'x'], 0o600⟩ ['n'] false (by decide)

/-- Claim C5: a dry run leaves every file's content and permission bits
unchanged, for every command string and force value. -/
theorem claim_C5 (st : FileState) (e : List Char) (force : Bool) :
    (addShebang (some st) e ⟨force, true⟩).stateOf = some st :=
  addShebang_stateOf_dryRun st e force

/-- Claim C6: for every command string that contains no whitespace after
stripping an optional leading `-S` token, synthesis yields exactly
`#!/usr/bin/env <command>` (one line, no trailing newline appended). -/
theorem claim_C6 (executable : List Char)
    (h : ∀ c ∈ stripS executable, isSpaceJS c = false) :
    createShebang executable = envLine ++ stripS executable := by
  simp [createShebang, containsSpace_eq_false _ h]

/-- Claim C6 witnessed on the command `-S node` (redundant flag stripped). -/
theorem claim_C6_witness :
    createShebang ['-', 'S', ' ', 'n', 'o', 'd', 'e'] =
      envLine ++ ['n', 'o', 'd', 'e'] := by
  have h := claim_C6 ['-', 'S', ' ', 'n', 'o', 'd', 'e'] (by decide)
  rw [h]
  decide

/-- Claim C7: whenever a non-dry-run application writes the file (that
is, reports `added`, by adding or force-replacing a shebang), the
resulting permission mode is exactly 0o755, whatever it was before. -/
theorem claim_C7 (file : Option FileState) (e : List Char) (opts : Options)
    (st2 : FileState)
    (h : addShebang file e opts = .done st2 .added) : st2.mode = 0o755 :=
  addShebang_added_mode file e opts st2 h

/-- Claim C7 witnessed: adding to the file `x` of mode 0o641. -/
theorem claim_C7_witness :
    (⟨envLine ++ ['n', '\n', 'x'], 0o755⟩ : FileState).mode = 0o755 :=
  claim_C7 (some ⟨['x'], 0o641⟩) ['n'] ⟨false, false⟩
    ⟨envLine ++ ['n', '\n', 'x'], 0o755⟩ (by decide)

/-- Claim C8: if a batch's prefix has been processed successfully and the
next target's path does not exist, the run aborts right there with exit
code 1: the filesystem and the report log are exactly those the prefix
produced, and no later target is read, written, or reported on. -/
theorem claim_C8 (fs : FS) (pre : List Target) (p : FPath) (e : List Char)
    (post : List Target) (opts : Options) (fs2 : FS)
    (log : List (FPath × Outcome))
    (hpre : runBatch fs pre opts = .ok fs2 log)
    (hmiss : fsRead fs2 p = none) :
    runBatch fs (pre ++ (p, e) :: post) opts = .fatalAt fs2 log p ∧
    (runBatch fs (pre ++ (p, e) :: post) opts).exitCode = 1 := by
  have h := runBatch_missing pre fs opts p e post fs2 log hpre hmiss
  exact ⟨h, by rw [h]; rfl⟩

/-- Claim C8 witnessed: file `a` exists, `b` does not, `c` is never
reached. -/
theorem claim_C8_witness :
    runBatch [(['a'], ⟨['x'], 0o644⟩)]
        ([(['a'], ['n'])] ++ (['b'], ['n']) :: [(['c'], ['m'])]) ⟨false, false⟩ =
      .fatalAt [(['a'], ⟨envLine ++ ['n', '\n', 'x'], 0o755⟩)]
        [(['a'], .added)] ['b'] ∧
    (runBatch [(['a'], ⟨['x'], 0o644⟩)]
        ([(['a'], ['n'])] ++ (['b'], ['n']) :: [(['c'], ['m'])])
        ⟨false, false⟩).exitCode = 1 :=
  claim_C8 [(['a'], ⟨['x'], 0o644⟩)] [(['a'], ['n'])] ['b'] ['n'] [(['c'], ['m'])]
    ⟨false, false⟩ [(['a'], ⟨envLine ++ ['n', '\n', 'x'], 0o755⟩)]
    [(['a'], .added)] (by decide) (by decide)

/-- Claim C9: the earlier revision is refined by the later one — the two
`createShebang` definitions are extensionally equal, and the earlier
`addShebang` behaves on every file and command exactly like the later
one invoked with force=false and dryRun=false. -/
theorem claim_C9 :
    (∀ e, createShebangV1 e = createShebang e) ∧
    (∀ file e, addShebangV1 file e = addShebang file e ⟨false, false⟩) := by
  constructor
  · intro e
    rfl
  · intro file e
    cases file with
    | none => rfl
    | some st =>
        cases h : hasShebang st.content <;>
          simp [addShebangV1, addShebang, h, createShebangV1, createShebang]

/-- Claim C10: every synthesized shebang line starts with `#!`, so a
successful non-dry-run application to a file not starting with `#!`
leaves a file that starts with `#!`, and a second application without
force leaves that file's content and permissions unchanged. -/
theorem claim_C10 (st : FileState) (e1 e2 : List Char) (force d : Bool)
    (st1 : FileState) (out : Outcome)
    (h0 : hasShebang st.content = false)
    (h1 : addShebang (some st) e1 ⟨force, false⟩ = .done st1 out) :
    hasShebang (createShebang e1) = true ∧
    hasShebang st1.content = true ∧
    (addShebang (some st1) e2 ⟨false, d⟩).stateOf = some st1 := by
  obtain ⟨content, mode⟩ := st
  replace h0 : hasShebang content = false := h0
  rw [addShebang_add content mode e1 force h0] at h1
  injection h1 with hA hB
  have hst : st1 = ⟨createShebang e1 ++ '\n' :: content, 0o755⟩ := hA.symm
  subst hst
  have hsb : hasShebang (createShebang e1 ++ '\n' :: content) = true :=
    hasShebang_append _ _ (hasShebang_createShebang e1)
  exact ⟨hasShebang_createShebang e1, hsb,
    addShebang_stateOf_noforce _ e2 d hsb⟩

/-- Claim C10 witnessed: add `n` to the file `x`, then try `m` on the
result without force. -/
theorem claim_C10_witness :
    hasShebang (createShebang ['n']) = true ∧
    hasShebang (FileState.mk (envLine ++ ['n', '\n', 'x']) 0o755).content = true ∧
    (addShebang (some ⟨envLine ++ ['n', '\n', 'x'], 0o755⟩) ['m']
      ⟨false, false⟩).stateOf = some ⟨envLine ++ ['n', '\n', 'x'], 0o755⟩ :=
  claim_C10 ⟨['x'], 0o600⟩ ['n'] ['m'] false false
    ⟨envLine ++ ['n', '\n', 'x'], 0o755⟩ .added (by decide) (by decide)
